import Mathlib

/-!
Verification of the address codec and classifier of `stacks-utils`
(`src/address.ts`).

Strings are modelled as `List Char`, bytes as `Nat` values below 256, and
every fallible operation returns an `Option`.  The functions
`isValidStacksAddress`, `isMainnetAddress`, `isTestnetAddress`,
`getNetworkFromAddress`, `parseStacksAddress`, `shortenAddress`,
`hash160ToAddress` and `addressesEqual` are translated directly from
`src/address.ts`.  The checksummed textual codec itself (`c32address`,
`c32addressDecode`) lives in the external `c32check` package, whose source is
not part of this repository; it is modelled from the specification: a
deterministic, total encoding of a (version byte, 20-byte payload) pair into
`'S'`, a version character from a base-32-style alphabet, and a fixed-width
base-32 rendering of the payload followed by an appended 32-bit checksum,
with decoding its exact inverse, failing on alphabet violations, length
violations, or checksum mismatch.
-/

namespace StacksUtils

/-- Base-32 digits rendered as characters (Crockford-style alphabet, so that
version 22 renders as `P`, 20 as `M`, 26 as `T` and 21 as `N`, matching the
address prefixes `SP`, `SM`, `ST`, `SN` named by the specification). -/
def digitToChar (d : Nat) : Char :=
  match d with
  | 31 => 'Z' | 30 => 'Y' | 29 => 'X' | 28 => 'W' | 27 => 'V' | 26 => 'T'
  | 25 => 'S' | 24 => 'R' | 23 => 'Q' | 22 => 'P' | 21 => 'N' | 20 => 'M'
  | 19 => 'K' | 18 => 'J' | 17 => 'H' | 16 => 'G' | 15 => 'F' | 14 => 'E'
  | 13 => 'D' | 12 => 'C' | 11 => 'B' | 10 => 'A' | 9 => '9' | 8 => '8'
  | 7 => '7' | 6 => '6' | 5 => '5' | 4 => '4' | 3 => '3' | 2 => '2'
  | 1 => '1' | 0 => '0' | _ => '0'

/-- Partial inverse of `digitToChar`: the digit value of an alphabet
character, `none` for a character outside the alphabet. -/
def charToDigit (c : Char) : Option Nat :=
  match c with
  | 'Z' => some 31 | 'Y' => some 30 | 'X' => some 29 | 'W' => some 28
  | 'V' => some 27 | 'T' => some 26 | 'S' => some 25 | 'R' => some 24
  | 'Q' => some 23 | 'P' => some 22 | 'N' => some 21 | 'M' => some 20
  | 'K' => some 19 | 'J' => some 18 | 'H' => some 17 | 'G' => some 16
  | 'F' => some 15 | 'E' => some 14 | 'D' => some 13 | 'C' => some 12
  | 'B' => some 11 | 'A' => some 10 | '9' => some 9 | '8' => some 8
  | '7' => some 7 | '6' => some 6 | '5' => some 5 | '4' => some 4
  | '3' => some 3 | '2' => some 2 | '1' => some 1 | '0' => some 0
  | _ => none

theorem charToDigit_digitToChar : ∀ d : Nat, d < 32 →
    charToDigit (digitToChar d) = some d := by decide

theorem charToDigit_lt {c : Char} {d : Nat} (h : charToDigit c = some d) :
    d < 32 := by
  unfold charToDigit at h
  split at h <;> first
    | exact Option.noConfusion h
    | (injection h with h; omega)

theorem digitToChar_charToDigit {c : Char} {d : Nat}
    (h : charToDigit c = some d) : digitToChar d = c := by
  unfold charToDigit at h
  split at h <;> first
    | exact Option.noConfusion h
    | (injection h with h; subst h; simp_all [digitToChar])

/-- Little-endian fixed-width digit expansion of a natural number in base `b`.
-/
def toDigitsLE (b : Nat) : Nat → Nat → List Nat
  | 0, _ => []
  | w + 1, n => n % b :: toDigitsLE b w (n / b)

/-- Value of a little-endian digit list in base `b`. -/
def ofDigitsLE (b : Nat) : List Nat → Nat
  | [] => 0
  | d :: ds => d + b * ofDigitsLE b ds

theorem length_toDigitsLE (b : Nat) : ∀ w n, (toDigitsLE b w n).length = w
  | 0, _ => rfl
  | w + 1, n => by simp [toDigitsLE, length_toDigitsLE b w]

theorem toDigitsLE_lt (b : Nat) (hb : 0 < b) :
    ∀ w n, ∀ d ∈ toDigitsLE b w n, d < b
  | 0, _ => by simp [toDigitsLE]
  | w + 1, n => by
    simp only [toDigitsLE, List.mem_cons]
    rintro d (rfl | hd)
    · exact Nat.mod_lt _ hb
    · exact toDigitsLE_lt b hb w (n / b) d hd

theorem ofDigitsLE_toDigitsLE (b : Nat) (hb : 1 < b) :
    ∀ w n, n < b ^ w → ofDigitsLE b (toDigitsLE b w n) = n
  | 0, n, h => by
    rw [pow_zero] at h
    simp [toDigitsLE, ofDigitsLE]
    omega
  | w + 1, n, h => by
    have hb0 : 0 < b := Nat.lt_of_lt_of_le Nat.one_pos (Nat.le_of_lt hb)
    have hdiv : n / b < b ^ w := by
      rw [Nat.div_lt_iff_lt_mul hb0]
      calc n < b ^ (w + 1) := h
        _ = b ^ w * b := by ring
    simp only [toDigitsLE, ofDigitsLE,
      ofDigitsLE_toDigitsLE b hb w (n / b) hdiv]
    exact Nat.mod_add_div n b

theorem toDigitsLE_ofDigitsLE (b : Nat) (hb : 1 < b) :
    ∀ ds : List Nat, (∀ d ∈ ds, d < b) →
      toDigitsLE b ds.length (ofDigitsLE b ds) = ds
  | [], _ => rfl
  | d :: ds, h => by
    have hb0 : 0 < b := Nat.lt_of_lt_of_le Nat.one_pos (Nat.le_of_lt hb)
    have hd : d < b := h d (List.mem_cons_self d ds)
    have hmod : (d + b * ofDigitsLE b ds) % b = d := by
      rw [Nat.add_mul_mod_self_left, Nat.mod_eq_of_lt hd]
    have hdiv : (d + b * ofDigitsLE b ds) / b = ofDigitsLE b ds := by
      rw [Nat.add_mul_div_left d _ hb0, Nat.div_eq_of_lt hd, Nat.zero_add]
    simp only [List.length_cons, toDigitsLE, ofDigitsLE, hmod, hdiv,
      List.cons.injEq, true_and]
    exact toDigitsLE_ofDigitsLE b hb ds fun x hx => h x (List.mem_cons_of_mem d hx)

theorem ofDigitsLE_lt (b : Nat) (hb : 1 < b) :
    ∀ ds : List Nat, (∀ d ∈ ds, d < b) → ofDigitsLE b ds < b ^ ds.length
  | [], _ => by simp [ofDigitsLE]
  | d :: ds, h => by
    have hd : d < b := h d (List.mem_cons_self d ds)
    have ih : ofDigitsLE b ds < b ^ ds.length :=
      ofDigitsLE_lt b hb ds fun x hx => h x (List.mem_cons_of_mem d hx)
    simp only [ofDigitsLE, List.length_cons, pow_succ]
    calc d + b * ofDigitsLE b ds < b + b * ofDigitsLE b ds := by omega
      _ = b * (ofDigitsLE b ds + 1) := by ring
      _ ≤ b * b ^ ds.length := Nat.mul_le_mul_left b ih
      _ = b ^ ds.length * b := by ring

/-- Reads every character of a list as a base-32 digit; `none` as soon as one
character violates the alphabet. -/
def allDigits : List Char → Option (List Nat)
  | [] => some []
  | c :: cs =>
    match charToDigit c, allDigits cs with
    | some d, some ds => some (d :: ds)
    | _, _ => none

theorem allDigits_map_digitToChar :
    ∀ ds : List Nat, (∀ d ∈ ds, d < 32) →
      allDigits (ds.map digitToChar) = some ds
  | [], _ => rfl
  | d :: ds, h => by
    have hd : d < 32 := h d (List.mem_cons_self d ds)
    have ih := allDigits_map_digitToChar ds
      fun x hx => h x (List.mem_cons_of_mem d hx)
    simp only [List.map_cons, allDigits, charToDigit_digitToChar d hd, ih]

theorem allDigits_inv :
    ∀ {cs : List Char} {ds : List Nat}, allDigits cs = some ds →
      cs = ds.map digitToChar ∧ ds.length = cs.length ∧ ∀ d ∈ ds, d < 32 := by
  intro cs
  induction cs with
  | nil => intro ds h; injection h with h; subst h; simp
  | cons c cs ih =>
    intro ds h
    unfold allDigits at h
    cases hc : charToDigit c with
    | none => rw [hc] at h; exact Option.noConfusion h
    | some d =>
      cases hcs : allDigits cs with
      | none => rw [hc, hcs] at h; exact Option.noConfusion h
      | some es =>
        rw [hc, hcs] at h
        injection h with h
        subst h
        obtain ⟨h1, h2, h3⟩ := ih hcs
        refine ⟨?_, by simp [h2], ?_⟩
        · simp [List.map_cons, digitToChar_charToDigit hc, h1.symm]
        · intro x hx
          rcases List.mem_cons.mp hx with rfl | hx
          · exact charToDigit_lt hc
          · exact h3 x hx

/-- Modelled from the spec: the 32-bit checksum appended by the external
`c32check` codec before base-32 rendering.  The specification treats the
checksum algorithm as externally defined; it is modelled here as a
deterministic 32-bit fold over the version byte and every payload byte. -/
def checksum (version : Nat) (hash160 : List Nat) : Nat :=
  hash160.foldl (fun acc b => (acc * 131 + b * 251 + 7) % 4294967296)
    (version % 4294967296)

theorem foldl_checksum_lt :
    ∀ (l : List Nat) (acc : Nat), acc < 4294967296 →
      l.foldl (fun acc b => (acc * 131 + b * 251 + 7) % 4294967296) acc <
        4294967296
  | [], acc, h => h
  | b :: l, acc, _ => by
    simp only [List.foldl_cons]
    exact foldl_checksum_lt l _ (Nat.mod_lt _ (by norm_num))

theorem checksum_lt (version : Nat) (hash160 : List Nat) :
    checksum version hash160 < 4294967296 :=
  foldl_checksum_lt hash160 _ (Nat.mod_lt _ (by norm_num))

/-- Big-endian value of a byte list. -/
def bytesToNat (bs : List Nat) : Nat := ofDigitsLE 256 bs.reverse

/-- Fixed-width big-endian byte expansion of a natural number. -/
def natToBytes (w n : Nat) : List Nat := (toDigitsLE 256 w n).reverse

theorem natToBytes_bytesToNat {bs : List Nat} (hlen : bs.length = 20)
    (hlt : ∀ b ∈ bs, b < 256) : natToBytes 20 (bytesToNat bs) = bs := by
  unfold natToBytes bytesToNat
  have hrev : bs.reverse.length = 20 := by simp [hlen]
  have hlt2 : ∀ b ∈ bs.reverse, b < 256 :=
    fun b hb => hlt b (List.mem_reverse.mp hb)
  have := toDigitsLE_ofDigitsLE 256 (by norm_num) bs.reverse hlt2
  rw [hrev] at this
  rw [this, List.reverse_reverse]

theorem bytesToNat_natToBytes {w n : Nat} (h : n < 256 ^ w) :
    bytesToNat (natToBytes w n) = n := by
  unfold natToBytes bytesToNat
  rw [List.reverse_reverse]
  exact ofDigitsLE_toDigitsLE 256 (by norm_num) w n h

theorem bytesToNat_lt {bs : List Nat} (hlen : bs.length = 20)
    (hlt : ∀ b ∈ bs, b < 256) : bytesToNat bs < 256 ^ 20 := by
  unfold bytesToNat
  have := ofDigitsLE_lt 256 (by norm_num) bs.reverse
    (fun b hb => hlt b (List.mem_reverse.mp hb))
  simpa [hlen] using this

theorem length_natToBytes (w n : Nat) : (natToBytes w n).length = w := by
  simp [natToBytes, length_toDigitsLE]

theorem natToBytes_lt (w n : Nat) : ∀ b ∈ natToBytes w n, b < 256 := by
  intro b hb
  exact toDigitsLE_lt 256 (by norm_num) w n b (List.mem_reverse.mp hb)

/-- Modelled from the spec: `c32address` of the external `c32check` package.
`Encode(version, hash) → address string`: deterministic and total for a
version byte and a 20-byte payload; produces `'S'`, the version rendered as
one alphabet character, and a 39-character fixed-width base-32 rendering of
the payload with the 32-bit checksum appended in the low bits. -/
def c32address (version : Nat) (hash160 : List Nat) : List Char :=
  'S' :: digitToChar version ::
    ((toDigitsLE 32 39
      (4294967296 * bytesToNat hash160 + checksum version hash160)).reverse.map
        digitToChar)

/-- Modelled from the spec: `c32addressDecode` of the external `c32check`
package.  `Decode(address) → (version, 20-byte hash) | error`: exact inverse
of `c32address`; fails (returns `none`) when the leading `'S'` is missing,
the character alphabet is violated, the body does not encode a 20-byte
payload, or the appended checksum does not match. -/
def c32addressDecode (addr : List Char) : Option (Nat × List Nat) :=
  match addr with
  | 'S' :: vc :: body =>
    match charToDigit vc, allDigits body with
    | some version, some ds =>
      if ds.length = 39 then
        let n := ofDigitsLE 32 ds.reverse
        if n < 6277101735386680763835789423207666416102355444464034512896 then
          let hash160 := natToBytes 20 (n / 4294967296)
          if checksum version hash160 = n % 4294967296 then
            some (version, hash160)
          else none
        else none
      else none
    | _, _ => none
  | _ => none

theorem c32addressDecode_cons (vc : Char) (body : List Char) :
    c32addressDecode ('S' :: vc :: body) =
      match charToDigit vc, allDigits body with
      | some version, some ds =>
        if ds.length = 39 then
          let n := ofDigitsLE 32 ds.reverse
          if n < 6277101735386680763835789423207666416102355444464034512896 then
            let hash160 := natToBytes 20 (n / 4294967296)
            if checksum version hash160 = n % 4294967296 then
              some (version, hash160)
            else none
          else none
        else none
      | _, _ => none := rfl

/-- Decoding an encoded (version, 20-byte payload) pair recovers the pair. -/
theorem c32addressDecode_c32address {version : Nat} (hv : version < 32)
    {hash160 : List Nat} (hlen : hash160.length = 20)
    (hlt : ∀ b ∈ hash160, b < 256) :
    c32addressDecode (c32address version hash160) = some (version, hash160) := by
  have hB : bytesToNat hash160 < 256 ^ 20 := bytesToNat_lt hlen hlt
  have h256 : (256 : Nat) ^ 20 = 1461501637330902918203684832716283019655932542976 := by
    norm_num
  rw [h256] at hB
  have hC : checksum version hash160 < 4294967296 := checksum_lt version hash160
  have hn : 4294967296 * bytesToNat hash160 + checksum version hash160 <
      6277101735386680763835789423207666416102355444464034512896 := by omega
  have hn39 : 4294967296 * bytesToNat hash160 + checksum version hash160 <
      32 ^ 39 := by
    have h32 : (32 : Nat) ^ 39 =
        50216813883093446110686315385661331328818843555712276103168 := by
      norm_num
    omega
  have hdig : ∀ d ∈ (toDigitsLE 32 39
      (4294967296 * bytesToNat hash160 + checksum version hash160)).reverse,
      d < 32 :=
    fun d hd => toDigitsLE_lt 32 (by norm_num) 39 _ d (List.mem_reverse.mp hd)
  rw [c32address, c32addressDecode_cons, charToDigit_digitToChar version hv,
    allDigits_map_digitToChar _ hdig]
  simp only [List.length_reverse, length_toDigitsLE, if_pos rfl,
    List.reverse_reverse, ofDigitsLE_toDigitsLE 32 (by norm_num : (1:Nat) < 32)
      39 _ hn39, if_pos hn]
  have hdiv : (4294967296 * bytesToNat hash160 + checksum version hash160) /
      4294967296 = bytesToNat hash160 := by
    rw [Nat.mul_add_div (by norm_num), Nat.div_eq_of_lt hC, Nat.add_zero]
  have hmod : (4294967296 * bytesToNat hash160 + checksum version hash160) %
      4294967296 = checksum version hash160 := by
    rw [Nat.mul_add_mod, Nat.mod_eq_of_lt hC]
  rw [hdiv, hmod, natToBytes_bytesToNat hlen hlt]
  simp

/-- Any successfully decoded address is exactly the encoding of the decoded
pair: a successful decode forces the canonical shape. -/
theorem c32address_c32addressDecode {addr : List Char} {version : Nat}
    {hash160 : List Nat}
    (h : c32addressDecode addr = some (version, hash160)) :
    c32address version hash160 = addr := by
  match addr with
  | [] => exact Option.noConfusion h
  | [c] =>
    unfold c32addressDecode at h
    split at h <;> first
      | exact Option.noConfusion h
      | simp_all
  | c :: vc :: body =>
    by_cases hS : c = 'S'
    case neg =>
      unfold c32addressDecode at h
      split at h <;> simp_all
    subst hS
    rw [c32addressDecode_cons] at h
    cases hvc : charToDigit vc with
    | none => rw [hvc] at h; exact Option.noConfusion h
    | some v =>
      cases hbody : allDigits body with
      | none => rw [hvc, hbody] at h; exact Option.noConfusion h
      | some ds =>
        rw [hvc, hbody] at h
        simp only at h
        by_cases hlen : ds.length = 39
        case neg => rw [if_neg hlen] at h; exact Option.noConfusion h
        rw [if_pos hlen] at h
        by_cases hn : ofDigitsLE 32 ds.reverse <
            6277101735386680763835789423207666416102355444464034512896
        case neg => rw [if_neg hn] at h; exact Option.noConfusion h
        rw [if_pos hn] at h
        by_cases hchk : checksum v (natToBytes 20
            (ofDigitsLE 32 ds.reverse / 4294967296)) =
            ofDigitsLE 32 ds.reverse % 4294967296
        case neg => rw [if_neg hchk] at h; exact Option.noConfusion h
        rw [if_pos hchk] at h
        injection h with h
        rw [Prod.mk.injEq] at h
        obtain ⟨hv, hh⟩ := h
        subst hv
        subst hh
        obtain ⟨hmap, hdlen, hdlt⟩ := allDigits_inv hbody
        have hdivlt : ofDigitsLE 32 ds.reverse / 4294967296 < 256 ^ 20 := by
          rw [Nat.div_lt_iff_lt_mul (by norm_num : (0:Nat) < 4294967296)]
          calc ofDigitsLE 32 ds.reverse <
              6277101735386680763835789423207666416102355444464034512896 := hn
            _ = 256 ^ 20 * 4294967296 := by norm_num
        have hBN : bytesToNat (natToBytes 20
            (ofDigitsLE 32 ds.reverse / 4294967296)) =
            ofDigitsLE 32 ds.reverse / 4294967296 :=
          bytesToNat_natToBytes hdivlt
        have hCS : checksum v (natToBytes 20
            (ofDigitsLE 32 ds.reverse / 4294967296)) =
            ofDigitsLE 32 ds.reverse % 4294967296 := hchk
        unfold c32address
        rw [hBN, hCS, Nat.div_add_mod]
        have hds32 : ∀ d ∈ ds.reverse, d < 32 :=
          fun d hd => hdlt d (List.mem_reverse.mp hd)
        have hlenrev : ds.reverse.length = 39 := by simp [hlen]
        have htd : toDigitsLE 32 39 (ofDigitsLE 32 ds.reverse) = ds.reverse := by
          have := toDigitsLE_ofDigitsLE 32 (by norm_num) ds.reverse hds32
          rwa [hlenrev] at this
        rw [htd, List.reverse_reverse, ← hmap,
          digitToChar_charToDigit hvc]

/-- A successful decode always yields a version below 32 and a 20-byte
payload. -/
theorem c32addressDecode_inv {addr : List Char} {version : Nat}
    {hash160 : List Nat}
    (h : c32addressDecode addr = some (version, hash160)) :
    version < 32 ∧ hash160.length = 20 ∧ ∀ b ∈ hash160, b < 256 := by
  match addr with
  | [] => exact Option.noConfusion h
  | [c] =>
    unfold c32addressDecode at h
    split at h <;> first
      | exact Option.noConfusion h
      | simp_all
  | c :: vc :: body =>
    by_cases hS : c = 'S'
    case neg =>
      unfold c32addressDecode at h
      split at h <;> simp_all
    subst hS
    rw [c32addressDecode_cons] at h
    cases hvc : charToDigit vc with
    | none => rw [hvc] at h; exact Option.noConfusion h
    | some v =>
      cases hbody : allDigits body with
      | none => rw [hvc, hbody] at h; exact Option.noConfusion h
      | some ds =>
        rw [hvc, hbody] at h
        simp only at h
        split at h
        · split at h
          · split at h
            · injection h with h
              rw [Prod.mk.injEq] at h
              obtain ⟨hv, hh⟩ := h
              subst hv
              subst hh
              exact ⟨charToDigit_lt hvc, length_natToBytes _ _,
                natToBytes_lt _ _⟩
            · exact Option.noConfusion h
          · exact Option.noConfusion h
        · exact Option.noConfusion h

/- ------------------------------------------------------------------
Definitions translated from `src/address.ts`.
------------------------------------------------------------------ -/

/-- `NetworkType` of `src/address.ts` line 16. -/
inductive NetworkType where
  | mainnet
  | testnet
  deriving DecidableEq

/-- `AddressType` of `src/address.ts` line 17. -/
inductive AddressType where
  | singleSig
  | multiSig
  deriving DecidableEq

/-- `ADDRESS_VERSION.MAINNET_SINGLE_SIG` (`src/address.ts` lines 9-14). -/
def ADDRESS_VERSION_MAINNET_SINGLE_SIG : Nat := 22

/-- `ADDRESS_VERSION.MAINNET_MULTI_SIG`. -/
def ADDRESS_VERSION_MAINNET_MULTI_SIG : Nat := 20

/-- `ADDRESS_VERSION.TESTNET_SINGLE_SIG`. -/
def ADDRESS_VERSION_TESTNET_SINGLE_SIG : Nat := 26

/-- `ADDRESS_VERSION.TESTNET_MULTI_SIG`. -/
def ADDRESS_VERSION_TESTNET_MULTI_SIG : Nat := 21

/-- `AddressInfo` (`src/address.ts` lines 19-26). -/
structure AddressInfo where
  address : List Char
  network : NetworkType
  type : AddressType
  version : Nat
  hash160 : List Nat
  isValid : Bool
  deriving DecidableEq

/-- `isValidStacksAddress` (`src/address.ts` lines 33-45): empty input and
input not starting with `SP`/`ST`/`SM`/`SN` fail closed; otherwise the result
reports whether the full checksum decode succeeds.  The `try`/`catch` of the
source is rendered by the `Option`-valued decode, so no failure escapes. -/
def isValidStacksAddress (address : List Char) : Bool :=
  if address.isEmpty then false
  else if !(List.isPrefixOf ['S', 'P'] address) &&
      !(List.isPrefixOf ['S', 'T'] address) &&
      !(List.isPrefixOf ['S', 'M'] address) &&
      !(List.isPrefixOf ['S', 'N'] address) then false
  else (c32addressDecode address).isSome

/-- `isMainnetAddress` (`src/address.ts` lines 51-53). -/
def isMainnetAddress (address : List Char) : Bool :=
  List.isPrefixOf ['S', 'P'] address || List.isPrefixOf ['S', 'M'] address

/-- `isTestnetAddress` (`src/address.ts` lines 59-61). -/
def isTestnetAddress (address : List Char) : Bool :=
  List.isPrefixOf ['S', 'T'] address || List.isPrefixOf ['S', 'N'] address

/-- `getNetworkFromAddress` (`src/address.ts` lines 67-71). -/
def getNetworkFromAddress (address : List Char) : Option NetworkType :=
  if isMainnetAddress address then some NetworkType.mainnet
  else if isTestnetAddress address then some NetworkType.testnet
  else none

/-- The `switch (version)` of `parseStacksAddress` (`src/address.ts` lines
84-103): the fixed four-entry version table, `none` in the default case. -/
def classifyVersion (version : Nat) : Option (NetworkType × AddressType) :=
  if version = ADDRESS_VERSION_MAINNET_SINGLE_SIG then
    some (NetworkType.mainnet, AddressType.singleSig)
  else if version = ADDRESS_VERSION_MAINNET_MULTI_SIG then
    some (NetworkType.mainnet, AddressType.multiSig)
  else if version = ADDRESS_VERSION_TESTNET_SINGLE_SIG then
    some (NetworkType.testnet, AddressType.singleSig)
  else if version = ADDRESS_VERSION_TESTNET_MULTI_SIG then
    some (NetworkType.testnet, AddressType.multiSig)
  else none

/-- `parseStacksAddress` (`src/address.ts` lines 77-116): decode, classify
the version through the table, and package the record; any decode failure or
unrecognized version yields `none`. -/
def parseStacksAddress (address : List Char) : Option AddressInfo :=
  match c32addressDecode address with
  | none => none
  | some (version, hash160) =>
    match classifyVersion version with
    | none => none
    | some (network, t) =>
      some { address := address, network := network, type := t,
             version := version, hash160 := hash160, isValid := true }

/-- JavaScript `s.slice(-k)` for a non-negative count `k`: the last `k`
characters, except that `k = 0` yields the whole string because `-0` is `0`
in JavaScript. -/
def sliceFromEnd (s : List Char) (k : Nat) : List Char :=
  if k = 0 then s else s.drop (s.length - k)

/-- `shortenAddress` (`src/address.ts` lines 124-129), with `startChars` and
`endChars` defaulting to 5 and 4 at call sites. -/
def shortenAddress (address : List Char) (startChars endChars : Nat) :
    List Char :=
  if address.isEmpty || address.length ≤ startChars + endChars + 3 then
    address
  else
    address.take startChars ++ ['.', '.', '.'] ++ sliceFromEnd address endChars

/-- The version selection of `hash160ToAddress` (`src/address.ts` lines
142-152). -/
def addressVersion (network : NetworkType) (addrType : AddressType) : Nat :=
  match network with
  | NetworkType.mainnet =>
    match addrType with
    | AddressType.singleSig => ADDRESS_VERSION_MAINNET_SINGLE_SIG
    | AddressType.multiSig => ADDRESS_VERSION_MAINNET_MULTI_SIG
  | NetworkType.testnet =>
    match addrType with
    | AddressType.singleSig => ADDRESS_VERSION_TESTNET_SINGLE_SIG
    | AddressType.multiSig => ADDRESS_VERSION_TESTNET_MULTI_SIG

/-- `hash160ToAddress` (`src/address.ts` lines 137-155), with `network` and
`addrType` defaulting to mainnet single-sig at call sites. -/
def hash160ToAddress (hash160 : List Nat) (network : NetworkType)
    (addrType : AddressType) : List Char :=
  c32address (addressVersion network addrType) hash160

/-- JavaScript `toUpperCase` restricted to the ASCII range used by
addresses. -/
def toUpperCase (s : List Char) : List Char := s.map Char.toUpper

/-- `addressesEqual` (`src/address.ts` lines 162-165). -/
def addressesEqual (address1 address2 : List Char) : Bool :=
  if address1.isEmpty || address2.isEmpty then false
  else toUpperCase address1 == toUpperCase address2

/- ------------------------------------------------------------------
Helper lemmas shared by the claim theorems.
------------------------------------------------------------------ -/

theorem isValid_characterization (a : List Char) :
    isValidStacksAddress a =
      ((List.isPrefixOf ['S', 'P'] a || List.isPrefixOf ['S', 'T'] a ||
        List.isPrefixOf ['S', 'M'] a || List.isPrefixOf ['S', 'N'] a) &&
       (c32addressDecode a).isSome) := by
  unfold isValidStacksAddress
  cases a with
  | nil => simp [List.isPrefixOf]
  | cons c cs =>
    cases hP : List.isPrefixOf ['S', 'P'] (c :: cs) <;>
    cases hT : List.isPrefixOf ['S', 'T'] (c :: cs) <;>
    cases hM : List.isPrefixOf ['S', 'M'] (c :: cs) <;>
    cases hN : List.isPrefixOf ['S', 'N'] (c :: cs) <;>
      simp [hP, hT, hM, hN]

theorem table_version_lt {version : Nat}
    (hv : version = 22 ∨ version = 20 ∨ version = 26 ∨ version = 21) :
    version < 32 := by
  rcases hv with rfl | rfl | rfl | rfl <;> decide

theorem c32address_table_good_start {version : Nat} (hash160 : List Nat)
    (hv : version = 22 ∨ version = 20 ∨ version = 26 ∨ version = 21) :
    (List.isPrefixOf ['S', 'P'] (c32address version hash160) ||
     List.isPrefixOf ['S', 'T'] (c32address version hash160) ||
     List.isPrefixOf ['S', 'M'] (c32address version hash160) ||
     List.isPrefixOf ['S', 'N'] (c32address version hash160)) = true := by
  rcases hv with rfl | rfl | rfl | rfl <;>
    simp [c32address, List.isPrefixOf, digitToChar]

theorem isPrefixOf_pair {c d : Char} {a : List Char} :
    List.isPrefixOf [c, d] a = true ↔ a.take 2 = [c, d] := by
  match a with
  | [] => simp [List.isPrefixOf]
  | [x] => simp [List.isPrefixOf]
  | x :: y :: rest =>
    rw [List.isPrefixOf_cons₂, List.isPrefixOf_cons₂]
    simp only [List.isPrefixOf_nil_left, Bool.and_true, Bool.and_eq_true,
      beq_iff_eq, List.take_succ_cons, List.take_zero, List.cons.injEq,
      and_true]
    constructor
    · rintro ⟨rfl, rfl⟩; exact ⟨rfl, rfl⟩
    · rintro ⟨rfl, rfl⟩; exact ⟨rfl, rfl⟩

theorem classifyVersion_some_version {v : Nat} {q : NetworkType × AddressType}
    (h : classifyVersion v = some q) :
    v = 22 ∨ v = 20 ∨ v = 26 ∨ v = 21 := by
  by_cases h22 : v = 22
  · exact Or.inl h22
  by_cases h20 : v = 20
  · exact Or.inr (Or.inl h20)
  by_cases h26 : v = 26
  · exact Or.inr (Or.inr (Or.inl h26))
  by_cases h21 : v = 21
  · exact Or.inr (Or.inr (Or.inr h21))
  simp [classifyVersion, ADDRESS_VERSION_MAINNET_SINGLE_SIG,
    ADDRESS_VERSION_MAINNET_MULTI_SIG, ADDRESS_VERSION_TESTNET_SINGLE_SIG,
    ADDRESS_VERSION_TESTNET_MULTI_SIG, h22, h20, h26, h21] at h

theorem addressVersion_table (network : NetworkType) (addrType : AddressType) :
    addressVersion network addrType = 22 ∨ addressVersion network addrType = 20 ∨
    addressVersion network addrType = 26 ∨ addressVersion network addrType = 21 := by
  cases network <;> cases addrType <;> simp [addressVersion,
    ADDRESS_VERSION_MAINNET_SINGLE_SIG, ADDRESS_VERSION_MAINNET_MULTI_SIG,
    ADDRESS_VERSION_TESTNET_SINGLE_SIG, ADDRESS_VERSION_TESTNET_MULTI_SIG]

/- ------------------------------------------------------------------
Claim theorems.
------------------------------------------------------------------ -/

/-- C1: for every 20-byte payload and each of the four known version codes
22 (mainnet single-sig), 20 (mainnet multi-sig), 26 (testnet single-sig) and
21 (testnet multi-sig), encoding the (version, payload) pair to an address
and then decoding that address returns exactly the original pair. -/
theorem encode_then_decode_roundtrip (hash160 : List Nat)
    (network : NetworkType) (addrType : AddressType)
    (hlen : hash160.length = 20) (hlt : ∀ b ∈ hash160, b < 256) :
    c32addressDecode (hash160ToAddress hash160 network addrType) =
      some (addressVersion network addrType, hash160) ∧
    addressVersion NetworkType.mainnet AddressType.singleSig = 22 ∧
    addressVersion NetworkType.mainnet AddressType.multiSig = 20 ∧
    addressVersion NetworkType.testnet AddressType.singleSig = 26 ∧
    addressVersion NetworkType.testnet AddressType.multiSig = 21 := by
  refine ⟨?_, by decide, by decide, by decide, by decide⟩
  exact c32addressDecode_c32address
    (table_version_lt (addressVersion_table network addrType)) hlen hlt

/-- C1 witness at the all-zero 20-byte payload and version 22. -/
theorem encode_then_decode_roundtrip_witness :
    c32addressDecode (hash160ToAddress (List.replicate 20 0)
      NetworkType.mainnet AddressType.singleSig) =
      some (addressVersion NetworkType.mainnet AddressType.singleSig,
        List.replicate 20 0) :=
  (encode_then_decode_roundtrip (List.replicate 20 0) NetworkType.mainnet
    AddressType.singleSig (by decide) (by decide)).1

/-- C2: every string that decodes as a mainnet single-sig address (version
22) re-encodes, through `hash160ToAddress` with mainnet single-sig
parameters, to the identical string. -/
theorem decode_then_encode_identity (address : List Char) (hash160 : List Nat)
    (h : c32addressDecode address =
      some (ADDRESS_VERSION_MAINNET_SINGLE_SIG, hash160)) :
    hash160ToAddress hash160 NetworkType.mainnet AddressType.singleSig =
      address :=
  c32address_c32addressDecode h

/-- C2 witness at the encoding of the all-zero payload. -/
theorem decode_then_encode_identity_witness :
    hash160ToAddress (List.replicate 20 0) NetworkType.mainnet
      AddressType.singleSig = c32address 22 (List.replicate 20 0) :=
  decode_then_encode_identity (c32address 22 (List.replicate 20 0))
    (List.replicate 20 0) (by decide)

/-- C3: the address encoded from any 20-byte payload under any of the four
known versions validates successfully. -/
theorem validate_encode_true (hash160 : List Nat) (network : NetworkType)
    (addrType : AddressType) (hlen : hash160.length = 20)
    (hlt : ∀ b ∈ hash160, b < 256) :
    isValidStacksAddress (hash160ToAddress hash160 network addrType) = true := by
  have htab := addressVersion_table network addrType
  have hdec := c32addressDecode_c32address (table_version_lt htab) hlen hlt
  unfold hash160ToAddress
  rw [isValid_characterization, c32address_table_good_start hash160 htab,
    hdec]
  rfl

/-- C3 witness at the all-zero payload, testnet multi-sig. -/
theorem validate_encode_true_witness :
    isValidStacksAddress (hash160ToAddress (List.replicate 20 0)
      NetworkType.testnet AddressType.multiSig) = true :=
  validate_encode_true (List.replicate 20 0) NetworkType.testnet
    AddressType.multiSig (by decide) (by decide)

/-- C4: version classification returns (mainnet, single-sig) for 22,
(mainnet, multi-sig) for 20, (testnet, single-sig) for 26, (testnet,
multi-sig) for 21, and `none` for every other value. -/
theorem classify_version_table :
    classifyVersion 22 = some (NetworkType.mainnet, AddressType.singleSig) ∧
    classifyVersion 20 = some (NetworkType.mainnet, AddressType.multiSig) ∧
    classifyVersion 26 = some (NetworkType.testnet, AddressType.singleSig) ∧
    classifyVersion 21 = some (NetworkType.testnet, AddressType.multiSig) ∧
    ∀ v : Nat, v ≠ 22 → v ≠ 20 → v ≠ 26 → v ≠ 21 →
      classifyVersion v = none := by
  refine ⟨by decide, by decide, by decide, by decide, ?_⟩
  intro v h22 h20 h26 h21
  simp [classifyVersion, ADDRESS_VERSION_MAINNET_SINGLE_SIG,
    ADDRESS_VERSION_MAINNET_MULTI_SIG, ADDRESS_VERSION_TESTNET_SINGLE_SIG,
    ADDRESS_VERSION_TESTNET_MULTI_SIG, h22, h20, h26, h21]

/-- C4 witness at the boundary byte values 0, 19, 23, 27 and 255. -/
theorem classify_version_table_witness :
    classifyVersion 0 = none ∧ classifyVersion 19 = none ∧
    classifyVersion 23 = none ∧ classifyVersion 27 = none ∧
    classifyVersion 255 = none :=
  ⟨classify_version_table.2.2.2.2 0 (by decide) (by decide) (by decide)
      (by decide),
   classify_version_table.2.2.2.2 19 (by decide) (by decide) (by decide)
      (by decide),
   classify_version_table.2.2.2.2 23 (by decide) (by decide) (by decide)
      (by decide),
   classify_version_table.2.2.2.2 27 (by decide) (by decide) (by decide)
      (by decide),
   classify_version_table.2.2.2.2 255 (by decide) (by decide) (by decide)
      (by decide)⟩

/-- C5: parsing any string that fails validation returns `none`. -/
theorem parse_none_of_invalid (address : List Char)
    (h : isValidStacksAddress address = false) :
    parseStacksAddress address = none := by
  cases hp : parseStacksAddress address with
  | none => rfl
  | some info =>
    exfalso
    unfold parseStacksAddress at hp
    cases hd : c32addressDecode address with
    | none => rw [hd] at hp; exact Option.noConfusion hp
    | some p =>
      obtain ⟨version, hash160⟩ := p
      rw [hd] at hp
      cases hc : classifyVersion version with
      | none =>
        simp only [hc] at hp
        exact Option.noConfusion hp
      | some q =>
        have htab := classifyVersion_some_version hc
        have heq := c32address_c32addressDecode hd
        rw [← heq] at h hd
        rw [isValid_characterization,
          c32address_table_good_start hash160 htab, hd] at h
        simp at h

/-- C5 witness at a prefix-mismatched input. -/
theorem parse_none_of_invalid_witness :
    parseStacksAddress ("invalid".toList) = none :=
  parse_none_of_invalid ("invalid".toList) (by decide)

/-- C6: validation fails closed: it returns `false` on empty input and on any
input whose start is none of `SP`, `ST`, `SM`, `SN`, and it returns `true`
exactly when the input carries one of those four starts and the full checksum
decode succeeds.  Every internal decode failure surfaces as the `none` of the
`Option`-valued decode and is converted to `false`; the embedding is a total
function, so no exception can propagate. -/
theorem validate_fails_closed :
    isValidStacksAddress [] = false ∧
    (∀ a : List Char,
      (List.isPrefixOf ['S', 'P'] a || List.isPrefixOf ['S', 'T'] a ||
       List.isPrefixOf ['S', 'M'] a || List.isPrefixOf ['S', 'N'] a) = false →
      isValidStacksAddress a = false) ∧
    (∀ a : List Char,
      isValidStacksAddress a = true ↔
        ((List.isPrefixOf ['S', 'P'] a || List.isPrefixOf ['S', 'T'] a ||
          List.isPrefixOf ['S', 'M'] a || List.isPrefixOf ['S', 'N'] a) = true ∧
         (c32addressDecode a).isSome = true)) := by
  refine ⟨by decide, ?_, ?_⟩
  · intro a ha
    rw [isValid_characterization, ha]
    rfl
  · intro a
    rw [isValid_characterization, Bool.and_eq_true]

/-- C6 witness at the spec's rejected inputs. -/
theorem validate_fails_closed_witness :
    isValidStacksAddress ("invalid".toList) = false ∧
    isValidStacksAddress ("0x1234".toList) = false ∧
    isValidStacksAddress ("bc1qar0srrr7xfkvy5l643lydnw9re59gtzzwf5mdq".toList)
      = false :=
  ⟨validate_fails_closed.2.1 ("invalid".toList) (by decide),
   validate_fails_closed.2.1 ("0x1234".toList) (by decide),
   validate_fails_closed.2.1
     ("bc1qar0srrr7xfkvy5l643lydnw9re59gtzzwf5mdq".toList) (by decide)⟩

/-- C7 counterexample: with `endChars = 0` the code appends the entire
string after the ellipsis (JavaScript `slice(-0)` is `slice(0)`), not the
last zero characters as the claim states. -/
theorem shorten_claim_counterexample :
    shortenAddress ("ABCDEFGHIJ".toList) 5 0 =
      ("ABCDE...ABCDEFGHIJ".toList) ∧
    shortenAddress ("ABCDEFGHIJ".toList) 5 0 ≠ ("ABCDE...".toList) := by
  constructor <;> decide

/-- C7 (amended): for every string and parameters with `endChars ≥ 1`, the
input is returned unchanged when its length does not exceed
`startChars + endChars + 3`, and otherwise the result is the first
`startChars` characters, an ellipsis, and the last `endChars` characters; in
particular the spec's two examples hold at the default arguments 5 and 4. -/
theorem shorten_behavior (a : List Char) (startChars endChars : Nat)
    (he : 1 ≤ endChars) :
    (a.length ≤ startChars + endChars + 3 →
      shortenAddress a startChars endChars = a) ∧
    (a.length > startChars + endChars + 3 →
      shortenAddress a startChars endChars =
        a.take startChars ++ ['.', '.', '.'] ++
          a.drop (a.length - endChars)) ∧
    shortenAddress ("SP2J6ZY48GV1EZ5V2V5RB9MP66SW86PYKKNRV9EJ7".toList) 5 4 =
      ("SP2J6...9EJ7".toList) ∧
    shortenAddress ("SP123".toList) 5 4 = ("SP123".toList) := by
  refine ⟨?_, ?_, by decide, by decide⟩
  · intro hle
    simp [shortenAddress, hle]
  · intro hgt
    have hne : a.isEmpty = false := by
      cases a with
      | nil => simp at hgt
      | cons c cs => rfl
    have hnotle : ¬ a.length ≤ startChars + endChars + 3 := by omega
    have he0 : ¬ endChars = 0 := by omega
    simp [shortenAddress, sliceFromEnd, hne, hnotle, he0]

/-- C7 witness at the spec's default-argument example. -/
theorem shorten_behavior_witness :
    shortenAddress ("SP2J6ZY48GV1EZ5V2V5RB9MP66SW86PYKKNRV9EJ7".toList) 5 4 =
      ("SP2J6...9EJ7".toList) :=
  (shorten_behavior ("SP2J6ZY48GV1EZ5V2V5RB9MP66SW86PYKKNRV9EJ7".toList) 5 4
    (by decide)).2.2.1

/-- C8: network classification looks only at the first two characters,
case-sensitively and without any decode: mainnet exactly for a `SP` or `SM`
start, testnet exactly for a `ST` or `SN` start, `none` otherwise. -/
theorem network_prefix_only (a : List Char) :
    (getNetworkFromAddress a = some NetworkType.mainnet ↔
      (a.take 2 = ['S', 'P'] ∨ a.take 2 = ['S', 'M'])) ∧
    (getNetworkFromAddress a = some NetworkType.testnet ↔
      (a.take 2 = ['S', 'T'] ∨ a.take 2 = ['S', 'N'])) ∧
    (getNetworkFromAddress a = none ↔
      ¬(a.take 2 = ['S', 'P'] ∨ a.take 2 = ['S', 'M'] ∨
        a.take 2 = ['S', 'T'] ∨ a.take 2 = ['S', 'N'])) := by
  have hP := isPrefixOf_pair (c := 'S') (d := 'P') (a := a)
  have hT := isPrefixOf_pair (c := 'S') (d := 'T') (a := a)
  have hM := isPrefixOf_pair (c := 'S') (d := 'M') (a := a)
  have hN := isPrefixOf_pair (c := 'S') (d := 'N') (a := a)
  unfold getNetworkFromAddress isMainnetAddress isTestnetAddress
  cases hp : List.isPrefixOf ['S', 'P'] a <;>
  cases ht : List.isPrefixOf ['S', 'T'] a <;>
  cases hm : List.isPrefixOf ['S', 'M'] a <;>
  cases hn : List.isPrefixOf ['S', 'N'] a <;>
    simp_all

/-- C8 witness: a `SP` start classifies as mainnet. -/
theorem network_prefix_only_witness :
    getNetworkFromAddress ("SP123".toList) = some NetworkType.mainnet :=
  (network_prefix_only ("SP123".toList)).1.mpr (Or.inl (by decide))

/-- C9: address equality returns `false` when either input is empty and
otherwise holds exactly when the two inputs agree up to letter case; in
particular the spec's example pair, an address against its lowercase form,
compares equal, and an empty first input compares unequal. -/
theorem addresses_equal_spec :
    (∀ b : List Char, addressesEqual [] b = false) ∧
    (∀ a : List Char, addressesEqual a [] = false) ∧
    (∀ a b : List Char, a ≠ [] → b ≠ [] →
      (addressesEqual a b = true ↔ toUpperCase a = toUpperCase b)) ∧
    addressesEqual ("SP2J6ZY48GV1EZ5V2V5RB9MP66SW86PYKKNRV9EJ7".toList)
      ("sp2j6zy48gv1ez5v2v5rb9mp66sw86pykknrv9ej7".toList) = true ∧
    addressesEqual [] ("SP123".toList) = false := by
  refine ⟨?_, ?_, ?_, by decide, by decide⟩
  · intro b
    simp [addressesEqual]
  · intro a
    simp [addressesEqual]
  · intro a b ha hb
    simp [addressesEqual, ha, hb]

/-- C9 witness: a short address against its lowercase form. -/
theorem addresses_equal_spec_witness :
    addressesEqual ("SP123".toList) ("sp123".toList) = true :=
  (addresses_equal_spec.2.2.1 ("SP123".toList) ("sp123".toList) (by decide)
    (by decide)).mpr (by decide)

/-- C10: whenever parsing returns a record, the record's `isValid` field is
`true`, its `address` field is the input unchanged, its `version` field is
one of 20, 21, 22, 26, and its `network` and `type` fields are the fixed
table entry of that version. -/
theorem parse_info_invariants (address : List Char) (info : AddressInfo)
    (h : parseStacksAddress address = some info) :
    info.isValid = true ∧
    info.address = address ∧
    (info.version = 20 ∨ info.version = 21 ∨ info.version = 22 ∨
      info.version = 26) ∧
    (info.version = 20 → info.network = NetworkType.mainnet ∧
      info.type = AddressType.multiSig) ∧
    (info.version = 21 → info.network = NetworkType.testnet ∧
      info.type = AddressType.multiSig) ∧
    (info.version = 22 → info.network = NetworkType.mainnet ∧
      info.type = AddressType.singleSig) ∧
    (info.version = 26 → info.network = NetworkType.testnet ∧
      info.type = AddressType.singleSig) := by
  unfold parseStacksAddress at h
  cases hd : c32addressDecode address with
  | none => rw [hd] at h; exact Option.noConfusion h
  | some p =>
    obtain ⟨version, hash160⟩ := p
    rw [hd] at h
    cases hc : classifyVersion version with
    | none =>
      simp only [hc] at h
      exact Option.noConfusion h
    | some q =>
      obtain ⟨network, t⟩ := q
      simp only [hc] at h
      injection h with h
      subst h
      rcases classifyVersion_some_version hc with rfl | rfl | rfl | rfl
      · have h0 : some (NetworkType.mainnet, AddressType.singleSig) =
            some (network, t) :=
          Eq.trans (rfl) hc
        injection h0 with h0
        rw [Prod.mk.injEq] at h0
        obtain ⟨rfl, rfl⟩ := h0
        exact ⟨rfl, rfl, Or.inr (Or.inr (Or.inl rfl)),
          fun hv => absurd (a := (22 : Nat) = 20) hv (by decide),
          fun hv => absurd (a := (22 : Nat) = 21) hv (by decide),
          fun hv => ⟨rfl, rfl⟩,
          fun hv => absurd (a := (22 : Nat) = 26) hv (by decide)⟩
      · have h0 : some (NetworkType.mainnet, AddressType.multiSig) =
            some (network, t) :=
          Eq.trans (rfl) hc
        injection h0 with h0
        rw [Prod.mk.injEq] at h0
        obtain ⟨rfl, rfl⟩ := h0
        exact ⟨rfl, rfl, Or.inl rfl,
          fun hv => ⟨rfl, rfl⟩,
          fun hv => absurd (a := (20 : Nat) = 21) hv (by decide),
          fun hv => absurd (a := (20 : Nat) = 22) hv (by decide),
          fun hv => absurd (a := (20 : Nat) = 26) hv (by decide)⟩
      · have h0 : some (NetworkType.testnet, AddressType.singleSig) =
            some (network, t) :=
          Eq.trans (rfl) hc
        injection h0 with h0
        rw [Prod.mk.injEq] at h0
        obtain ⟨rfl, rfl⟩ := h0
        exact ⟨rfl, rfl, Or.inr (Or.inr (Or.inr rfl)),
          fun hv => absurd (a := (26 : Nat) = 20) hv (by decide),
          fun hv => absurd (a := (26 : Nat) = 21) hv (by decide),
          fun hv => absurd (a := (26 : Nat) = 22) hv (by decide),
          fun hv => ⟨rfl, rfl⟩⟩
      · have h0 : some (NetworkType.testnet, AddressType.multiSig) =
            some (network, t) :=
          Eq.trans (rfl) hc
        injection h0 with h0
        rw [Prod.mk.injEq] at h0
        obtain ⟨rfl, rfl⟩ := h0
        exact ⟨rfl, rfl, Or.inr (Or.inl rfl),
          fun hv => absurd (a := (21 : Nat) = 20) hv (by decide),
          fun hv => ⟨rfl, rfl⟩,
          fun hv => absurd (a := (21 : Nat) = 22) hv (by decide),
          fun hv => absurd (a := (21 : Nat) = 26) hv (by decide)⟩

/-- C10 witness at the parse of the encoded all-zero payload. -/
theorem parse_info_invariants_witness :
    ({ address := hash160ToAddress (List.replicate 20 0) NetworkType.mainnet
         AddressType.singleSig,
       network := NetworkType.mainnet, type := AddressType.singleSig,
       version := 22, hash160 := List.replicate 20 0,
       isValid := true } : AddressInfo).isValid = true :=
  (parse_info_invariants
    (hash160ToAddress (List.replicate 20 0) NetworkType.mainnet
      AddressType.singleSig)
    { address := hash160ToAddress (List.replicate 20 0) NetworkType.mainnet
        AddressType.singleSig,
      network := NetworkType.mainnet, type := AddressType.singleSig,
      version := 22, hash160 := List.replicate 20 0, isValid := true }
    (by decide)).1

end StacksUtils
